import Mathlib

/-
  Verification development for the Run State Projector of the ml-pipeline
  monitoring client.

  The definitions below are a shallow embedding of the TypeScript source:
    - src/ml-pipeline-ui/src/lib/types.ts          (transformRun, PHASE_ORDER)
    - the PhaseTimeline component                  (per-phase count for the UI)
  JavaScript numbers are modelled as rationals; a runtime value that is not a
  number (possible because the backend payload is unvalidated) is modelled by
  the constructor JVal.nonnum.  JavaScript objects are modelled as association
  lists with first-match lookup (object keys are unique, so first match agrees
  with the object semantics).  Optional fields are Option values.
-/

/-- PipelineStatus from types.ts lines 5-10. -/
inductive PipelineStatus where
  | pending
  | running
  | completed
  | completed_with_errors
  | failed
deriving DecidableEq

/-- PhaseKey from types.ts lines 12-18: the six canonical phases. -/
inductive PhaseKey where
  | data_profiling
  | feature_engineering
  | visualization
  | model_training
  | evaluation
  | critic_review
deriving DecidableEq

/-- Status field of PhaseInfo, types.ts line 22. -/
inductive PhaseStatus where
  | pending
  | running
  | completed
  | error
  | will_rerun
deriving DecidableEq

/-- Model of a JavaScript runtime value stored in the phase-timings map.
    JVal.num is a number (modelled as a rational); JVal.nonnum models any
    non-number runtime value.  The code guards numeric operations with a
    typeof check, so a nonnum value is never added into a total; where the
    code compares a value against 0 the model treats nonnum as not greater
    than zero. -/
inductive JVal where
  | num (v : Rat)
  | nonnum
deriving DecidableEq

/-- Rational addition written through mkRat so that it evaluates inside the
    kernel; ratAdd_eq below proves it is ordinary addition on Rat. -/
def ratAdd (a b : Rat) : Rat :=
  mkRat (a.num * (b.den : Int) + b.num * (a.den : Int)) (a.den * b.den)

/-- Test of whether one string begins with another, modelled on the
    character lists (the builtin byte-level test does not evaluate in the
    kernel). -/
def strStartsWith (s p : String) : Bool :=
  p.data.isPrefixOf s.data

/-- JavaScript addition of a number onto an accumulator that started from a
    timing value: adding to a non-number never yields a positive number. -/
def jadd : JVal → Rat → JVal
  | JVal.num a, b => JVal.num (ratAdd a b)
  | JVal.nonnum, _ => JVal.nonnum

/-- The test v greater than 0 on a timing value, as used by transformRun. -/
def jgt0 : JVal → Bool
  | JVal.num v => decide (0 < v)
  | JVal.nonnum => false

/-- First-match lookup in an association list: the model of reading a key of
    a JavaScript object (undefined becomes none). -/
def jlookup (l : List (String × JVal)) (k : String) : Option JVal :=
  (l.find? (fun kv => kv.1 = k)).map (fun kv => kv.2)

/-- Array.prototype.indexOf: index of the first occurrence, -1 if absent. -/
def jsIndexOf : List String → String → Int
  | [], _ => -1
  | x :: xs, s =>
      if x = s then 0
      else
        let r := jsIndexOf xs s
        if r < 0 then -1 else r + 1

/-- PhaseInfo from types.ts lines 20-27.  transformRun only ever constructs
    the fields phase, status and duration_seconds and later may overwrite
    status; the error field is never assigned by transformRun, and the
    timestamp fields are never used by the modelled code, so they are kept
    respectively as an always-none field and omitted. -/
structure PhaseInfo where
  phase : PhaseKey
  status : PhaseStatus
  duration_seconds : Option JVal
  error : Option String
deriving DecidableEq

/-- One entry of the raw errors array, types.ts line 107: either a bare
    string or a structured pair with optional phase tag and message. -/
inductive ErrEntry where
  | str (s : String)
  | obj (phase : Option String) (error : Option String)
deriving DecidableEq

/-- PipelineRunRaw from types.ts lines 100-115.  The opaque per-phase result
    payloads (data_profile, feature_engineering, visualizations, model,
    evaluation, critic_decisions, token_usage) are copied verbatim by
    transformRun and are not modelled. -/
structure PipelineRunRaw where
  pipeline_id : String
  status : PipelineStatus
  current_phase : Option String
  objectives : Option String
  phase_timings : Option (List (String × JVal))
  loop_count : Option Int
  errors : Option (List ErrEntry)
deriving DecidableEq

/-- PipelineRun from types.ts lines 125-140, restricted to the fields the
    modelled code produces (phases is always assigned by transformRun, hence
    a plain list). -/
structure PipelineRun where
  pipeline_id : String
  status : PipelineStatus
  current_phase : Option String
  objectives : Option String
  phases : List PhaseInfo
  loop_count : Option Int
  errors : Option (List String)
deriving DecidableEq

/-- The string form of each canonical phase key. -/
def phaseName : PhaseKey → String
  | PhaseKey.data_profiling => "data_profiling"
  | PhaseKey.feature_engineering => "feature_engineering"
  | PhaseKey.visualization => "visualization"
  | PhaseKey.model_training => "model_training"
  | PhaseKey.evaluation => "evaluation"
  | PhaseKey.critic_review => "critic_review"

/-- PHASE_ORDER from types.ts lines 143-150. -/
def PHASE_ORDER : List PhaseKey :=
  [PhaseKey.data_profiling,
   PhaseKey.feature_engineering,
   PhaseKey.visualization,
   PhaseKey.model_training,
   PhaseKey.evaluation,
   PhaseKey.critic_review]

/-- The canonical phase names in canonical order, as strings. -/
def PHASE_NAMES : List String := PHASE_ORDER.map phaseName

/-- Position of a canonical phase in PHASE_ORDER. -/
def canonIdx : PhaseKey → Nat
  | PhaseKey.data_profiling => 0
  | PhaseKey.feature_engineering => 1
  | PhaseKey.visualization => 2
  | PhaseKey.model_training => 3
  | PhaseKey.evaluation => 4
  | PhaseKey.critic_review => 5

/-- transformRun line 156: timings defaults to the empty map. -/
def timingsOf (raw : PipelineRunRaw) : List (String × JVal) :=
  raw.phase_timings.getD []

/-- transformRun lines 159-164: one step of the loop that sums all numeric
    values under keys starting with critic_review underscore. -/
def criticStep (acc : JVal) (kv : String × JVal) : JVal :=
  match kv.2 with
  | JVal.num v => if strStartsWith kv.1 ("critic_review_") then jadd acc v else acc
  | JVal.nonnum => acc

/-- transformRun lines 159-164: criticTotal starts from the bare
    critic_review entry (0 when absent) and folds criticStep over all
    entries of the timings map. -/
def criticTotal (timings : List (String × JVal)) : JVal :=
  timings.foldl criticStep ((jlookup timings ("critic_review")).getD (JVal.num 0))

/-- transformRun line 168: currentPhase defaults to the empty string. -/
def currentPhaseOf (raw : PipelineRunRaw) : String :=
  raw.current_phase.getD ""

/-- transformRun line 169: PHASE_ORDER.indexOf on the current phase. -/
def currentIdxOf (raw : PipelineRunRaw) : Int :=
  jsIndexOf PHASE_NAMES (currentPhaseOf raw)

/-- transformRun line 170. -/
def isRunningOf (raw : PipelineRunRaw) : Bool :=
  decide (raw.status = PipelineStatus.running)

/-- transformRun line 171. -/
def isFinalizedOf (raw : PipelineRunRaw) : Bool :=
  decide (currentPhaseOf raw = "finalized")

/-- transformRun line 172. -/
def isLoopingOf (raw : PipelineRunRaw) : Bool :=
  isRunningOf raw && decide (0 < raw.loop_count.getD 0) && !isFinalizedOf raw

/-- transformRun line 175: the displayed duration of a phase.  For
    critic_review it is criticTotal when that is greater than 0 and absent
    otherwise; every other phase reads its bare key from the timings map. -/
def phaseDurationOf (raw : PipelineRunRaw) (key : PhaseKey) : Option JVal :=
  if key = PhaseKey.critic_review then
    (if jgt0 (criticTotal (timingsOf raw)) then some (criticTotal (timingsOf raw)) else none)
  else jlookup (timingsOf raw) (phaseName key)

/-- transformRun lines 177-178: hasRun is a strictly positive duration, or
    the critic_review phase when the current phase is the finalized
    sentinel. -/
def hasRunOf (raw : PipelineRunRaw) (key : PhaseKey) : Bool :=
  (match phaseDurationOf raw key with
   | some v => jgt0 v
   | none => false)
  || (decide (key = PhaseKey.critic_review) && isFinalizedOf raw)

/-- transformRun lines 180-191: the status assigned to the phase at position
    idx of the canonical order. -/
def phaseStatusOf (raw : PipelineRunRaw) (idx : Nat) (key : PhaseKey) : PhaseStatus :=
  if decide (currentPhaseOf raw = phaseName key) && isRunningOf raw then
    PhaseStatus.running
  else if hasRunOf raw key then
    (if isLoopingOf raw && decide (0 ≤ currentIdxOf raw)
        && decide ((idx : Int) > currentIdxOf raw)
        && !decide (key = PhaseKey.critic_review) then
      PhaseStatus.will_rerun
    else PhaseStatus.completed)
  else PhaseStatus.pending

/-- transformRun line 192: the PhaseInfo built for one canonical phase. -/
def classifyOne (raw : PipelineRunRaw) (idx : Nat) (key : PhaseKey) : PhaseInfo :=
  { phase := key
    status := phaseStatusOf raw idx key
    duration_seconds := phaseDurationOf raw key
    error := none }

/-- transformRun lines 174-193: the map over PHASE_ORDER with indices. -/
def classifyPhases (raw : PipelineRunRaw) : List PhaseInfo :=
  PHASE_ORDER.enum.map (fun p => classifyOne raw p.1 p.2)

/-- Model of JSON.stringify on a structured error entry, used as the
    fallback message (transformRun line 202) when the error field is absent
    or empty.  Fields are rendered in schema order; none of the claims
    depend on the exact shape of this string. -/
def stringifyErr (phase : Option String) (err : Option String) : String :=
  let fields :=
    (match phase with
     | some p => ["\x22phase\x22:\x22" ++ p ++ "\x22"]
     | none => [])
    ++ (match err with
        | some e => ["\x22error\x22:\x22" ++ e ++ "\x22"]
        | none => [])
  "\x7b" ++ String.intercalate "," fields ++ "\x7d"

/-- transformRun line 202: the message of a structured entry is its error
    field unless that is absent or the empty string (both falsy), in which
    case the JSON rendering of the entry is used. -/
def renderMsg (phase : Option String) (err : Option String) : String :=
  match err with
  | some m => if m = "" then stringifyErr phase err else m
  | none => stringifyErr phase err

/-- transformRun lines 199-203: the single string contributed by one entry
    of the errors array; a structured entry with a truthy phase tag is
    prefixed with the bracketed tag. -/
def renderEntry : ErrEntry → String
  | ErrEntry.str s => s
  | ErrEntry.obj p e =>
      let msg := renderMsg p e
      match p with
      | some tag => if tag = "" then msg else "[" ++ tag ++ "] " ++ msg
      | none => msg

/-- transformRun lines 196-210, string half of the loop: every entry pushes
    exactly one string onto errorStrings. -/
def collectErrorStrings (entries : List ErrEntry) : List String :=
  entries.foldl
    (fun acc e =>
      match e with
      | ErrEntry.str s => acc ++ [s]
      | ErrEntry.obj p err => acc ++ [renderEntry (ErrEntry.obj p err)])
    []

/-- transformRun lines 205-208: phases.find on the tag followed by the
    status overwrite, i.e. the first phase view whose name equals the tag
    has its status set to error. -/
def markError : List PhaseInfo → String → List PhaseInfo
  | [], _ => []
  | ph :: rest, p =>
      if phaseName ph.phase = p then
        { ph with status := PhaseStatus.error } :: rest
      else ph :: markError rest p

/-- transformRun lines 198-210, marking half of the loop: each structured
    entry with a truthy phase tag marks the matching phase view. -/
def attachErrors (phases : List PhaseInfo) : List ErrEntry → List PhaseInfo
  | [] => phases
  | ErrEntry.str _ :: rest => attachErrors phases rest
  | ErrEntry.obj p _ :: rest =>
      match p with
      | some tag =>
          if tag = "" then attachErrors phases rest
          else attachErrors (markError phases tag) rest
      | none => attachErrors phases rest

/-- transformRun from types.ts lines 153-228.  The per-entry string pushes
    and status marks of the single source loop commute, so they are run as
    two passes over the same entry list. -/
def transformRun (raw : PipelineRunRaw) : PipelineRun :=
  let entries := raw.errors.getD []
  let errorStrings := collectErrorStrings entries
  { pipeline_id := raw.pipeline_id
    status := raw.status
    current_phase := raw.current_phase
    objectives := raw.objectives
    phases := attachErrors (classifyPhases raw) entries
    loop_count := raw.loop_count
    errors := if errorStrings.length > 0 then some errorStrings else none }

/-- PhaseTimeline component (file ThemeToggle.tsx, lines 146-157): the count
    recorded alongside the timeline entry of a phase is the number of phase
    views carrying that key. -/
def timelineCount (phases : List PhaseInfo) (k : PhaseKey) : Nat :=
  (phases.filter (fun p => decide (p.phase = k))).length

/-- First phase view with the given key, as used by the consumers of the
    projection. -/
def phaseViewIn (l : List PhaseInfo) (k : PhaseKey) : Option PhaseInfo :=
  l.find? (fun p => decide (p.phase = k))

/-- Status of the view of a phase, when the phase has a view. -/
def phaseStatusIn (l : List PhaseInfo) (k : PhaseKey) : Option PhaseStatus :=
  (phaseViewIn l k).map (fun p => p.status)

/-- Displayed duration of the view of a phase, when the phase has a view. -/
def phaseDurationIn (l : List PhaseInfo) (k : PhaseKey) : Option (Option JVal) :=
  (phaseViewIn l k).map (fun p => p.duration_seconds)

/-
  Definitions written from the words of the spec, used to compare the code
  against the specified aggregation (claim C3), and predicates used in
  claim hypotheses.
-/

/-- Written from the spec (claim C3): the sum of every numeric timing whose
    key has the prefix critic_review underscore; non-numeric values
    contribute zero. -/
def specCompositeSum : List (String × JVal) → Rat
  | [] => 0
  | kv :: rest =>
      (match kv.2 with
       | JVal.num v => if strStartsWith kv.1 ("critic_review_") then v else 0
       | JVal.nonnum => 0) + specCompositeSum rest

/-- Written from the spec (claim C3): the bare critic_review timing value,
    contributing zero when absent. -/
def specBareCritic (timings : List (String × JVal)) : Rat :=
  match jlookup timings ("critic_review") with
  | some (JVal.num v) => v
  | _ => 0

/-- Written from the spec (claim C3): bare value plus composite sum. -/
def specCriticDuration (timings : List (String × JVal)) : Rat :=
  specBareCritic timings + specCompositeSum timings

/-- Written from the spec (claim C3, as amended): the displayed duration of
    each phase — for critic_review the aggregate when strictly positive and
    absent otherwise, for every other phase the bare-key timing. -/
def specPhaseDuration (timings : List (String × JVal)) (k : PhaseKey) : Option JVal :=
  if k = PhaseKey.critic_review then
    (if 0 < specCriticDuration timings then some (JVal.num (specCriticDuration timings)) else none)
  else jlookup timings (phaseName k)

/-- The bare critic_review entry of the timings map is absent or numeric
    (rules out the untyped corner where the aggregation seed is not a
    number). -/
def bareCriticNumeric (timings : List (String × JVal)) : Bool :=
  match jlookup timings ("critic_review") with
  | some JVal.nonnum => false
  | _ => true

/-- A strictly positive numeric timing is recorded under the given key. -/
def posTiming (raw : PipelineRunRaw) (s : String) : Prop :=
  ∃ v : Rat, jlookup (timingsOf raw) s = some (JVal.num v) ∧ 0 < v

/-
  Concrete snapshots used as witness inputs and counterexample inputs.
-/

/-- Snapshot of the loop-back scenario: running, one loop taken, current
    phase feature_engineering, positive timings for the first four phases. -/
def rawLoop : PipelineRunRaw :=
  { pipeline_id := "r1"
    status := PipelineStatus.running
    current_phase := some ("feature_engineering")
    objectives := none
    phase_timings := some
      [("data_profiling", JVal.num 1),
       ("feature_engineering", JVal.num 2),
       ("visualization", JVal.num 3),
       ("model_training", JVal.num 4)]
    loop_count := some 1
    errors := none }

/-- Snapshot with the composite critic timings of the aggregation example
    and no bare critic_review key. -/
def rawCritic : PipelineRunRaw :=
  { pipeline_id := "r2"
    status := PipelineStatus.completed
    current_phase := none
    objectives := none
    phase_timings := some
      [("critic_review_1", JVal.num 2),
       ("critic_review_2", JVal.num (mkRat 7 2))]
    loop_count := some 2
    errors := none }

/-- Snapshot with no timings at all. -/
def rawEmptyT : PipelineRunRaw :=
  { pipeline_id := "r3"
    status := PipelineStatus.pending
    current_phase := none
    objectives := none
    phase_timings := none
    loop_count := none
    errors := none }

/-- Snapshot with a completed evaluation timing and a structured error entry
    naming the evaluation phase. -/
def rawErr : PipelineRunRaw :=
  { pipeline_id := "r4"
    status := PipelineStatus.completed
    current_phase := none
    objectives := none
    phase_timings := some [("evaluation", JVal.num 3)]
    loop_count := some 0
    errors := some [ErrEntry.obj (some ("evaluation")) (some ("divide by zero"))] }

/-- Snapshot finalized with a previously recorded aggregate critic duration
    and a positive loop count. -/
def rawFinal : PipelineRunRaw :=
  { pipeline_id := "r5"
    status := PipelineStatus.completed
    current_phase := some ("finalized")
    objectives := none
    phase_timings := some [("critic_review", JVal.num 5)]
    loop_count := some 1
    errors := none }

/-- Snapshot with an explicit zero timing entry for data_profiling and no
    other evidence of execution. -/
def rawZero : PipelineRunRaw :=
  { pipeline_id := "r6"
    status := PipelineStatus.pending
    current_phase := none
    objectives := none
    phase_timings := some [("data_profiling", JVal.num 0)]
    loop_count := none
    errors := none }

/-- Running snapshot whose current phase is the finalized sentinel, with a
    positive loop count and a phase that has run. -/
def rawSentinel : PipelineRunRaw :=
  { pipeline_id := "r7"
    status := PipelineStatus.running
    current_phase := some ("finalized")
    objectives := none
    phase_timings := some [("visualization", JVal.num 2)]
    loop_count := some 1
    errors := none }

/-
  Lemma layer.
-/

theorem ratAdd_eq (a b : Rat) : ratAdd a b = a + b :=
  (Rat.add_def' a b).symm

theorem jadd_num (a b : Rat) : jadd (JVal.num a) b = JVal.num (a + b) := by
  simp [jadd, ratAdd_eq]

theorem classifyPhases_eq (raw : PipelineRunRaw) :
    classifyPhases raw =
      [classifyOne raw 0 PhaseKey.data_profiling,
       classifyOne raw 1 PhaseKey.feature_engineering,
       classifyOne raw 2 PhaseKey.visualization,
       classifyOne raw 3 PhaseKey.model_training,
       classifyOne raw 4 PhaseKey.evaluation,
       classifyOne raw 5 PhaseKey.critic_review] := rfl

theorem phaseStatusIn_classify (raw : PipelineRunRaw) (k : PhaseKey) :
    phaseStatusIn (classifyPhases raw) k = some (phaseStatusOf raw (canonIdx k) k) := by
  cases k <;> rfl

theorem phaseDurationIn_classify (raw : PipelineRunRaw) (k : PhaseKey) :
    phaseDurationIn (classifyPhases raw) k = some (phaseDurationOf raw k) := by
  cases k <;> rfl

theorem jsIndexOf_neg_of_not_mem (l : List String) (s : String) (h : s ∉ l) :
    jsIndexOf l s = -1 := by
  induction l with
  | nil => rfl
  | cons x xs ih =>
      have hx : ¬ x = s := by
        intro he; subst he; exact h (List.mem_cons_self x xs)
      have hxs : s ∉ xs := fun hm => h (List.mem_cons_of_mem x hm)
      simp only [jsIndexOf, if_neg hx, ih hxs]
      norm_num

theorem jsIndexOf_nonneg_of_mem (l : List String) (s : String) (h : s ∈ l) :
    0 ≤ jsIndexOf l s := by
  induction l with
  | nil => simp at h
  | cons x xs ih =>
      by_cases hx : x = s
      · simp [jsIndexOf, hx]
      · have hs : s ∈ xs := by
          rcases List.mem_cons.mp h with h1 | h1
          · exact absurd h1.symm hx
          · exact h1
        have h0 := ih hs
        simp only [jsIndexOf, if_neg hx]
        have hlt : ¬ jsIndexOf xs s < 0 := not_lt.mpr h0
        simp only [if_neg hlt]
        omega

theorem jsIndexOf_phaseName (k : PhaseKey) :
    jsIndexOf PHASE_NAMES (phaseName k) = (canonIdx k : Int) := by
  cases k <;> decide

theorem phaseName_mem_PHASE_NAMES (k : PhaseKey) : phaseName k ∈ PHASE_NAMES := by
  cases k <;> decide

theorem phaseName_inj {a b : PhaseKey} (h : phaseName a = phaseName b) : a = b := by
  cases a <;> cases b <;> first
    | rfl
    | (exfalso; exact absurd h (by decide))

/-- Every phase classified by a snapshot keeps its key in the phase field. -/
theorem classifyOne_phase (raw : PipelineRunRaw) (i : Nat) (k : PhaseKey) :
    (classifyOne raw i k).phase = k := rfl

theorem markError_map_phase (l : List PhaseInfo) (p : String) :
    (markError l p).map (fun ph => ph.phase) = l.map (fun ph => ph.phase) := by
  induction l with
  | nil => rfl
  | cons ph rest ih =>
      by_cases h : phaseName ph.phase = p
      · simp [markError, h]
      · simp [markError, h, ih]

theorem phaseDurationIn_markError (l : List PhaseInfo) (p : String) (k : PhaseKey) :
    phaseDurationIn (markError l p) k = phaseDurationIn l k := by
  induction l with
  | nil => rfl
  | cons ph rest ih =>
      simp only [markError]
      by_cases h : phaseName ph.phase = p
      · rw [if_pos h]
        simp only [phaseDurationIn, phaseViewIn]
        by_cases hk : ph.phase = k
        · rw [List.find?_cons_of_pos _ (by simp [hk]),
              List.find?_cons_of_pos _ (by simp [hk])]
          rfl
        · rw [List.find?_cons_of_neg _ (by simp [hk]),
              List.find?_cons_of_neg _ (by simp [hk])]
      · rw [if_neg h]
        simp only [phaseDurationIn, phaseViewIn]
        by_cases hk : ph.phase = k
        · rw [List.find?_cons_of_pos _ (by simp [hk]),
              List.find?_cons_of_pos _ (by simp [hk])]
        · rw [List.find?_cons_of_neg _ (by simp [hk]),
              List.find?_cons_of_neg _ (by simp [hk])]
          exact ih

theorem phaseStatusIn_markError_cases (l : List PhaseInfo) (p : String) (k : PhaseKey) :
    phaseStatusIn (markError l p) k = phaseStatusIn l k ∨
      phaseStatusIn (markError l p) k = some PhaseStatus.error := by
  induction l with
  | nil => left; rfl
  | cons ph rest ih =>
      simp only [markError]
      by_cases h : phaseName ph.phase = p
      · rw [if_pos h]
        simp only [phaseStatusIn, phaseViewIn]
        by_cases hk : ph.phase = k
        · right
          rw [List.find?_cons_of_pos _ (by simp [hk])]
          rfl
        · left
          rw [List.find?_cons_of_neg _ (by simp [hk]),
              List.find?_cons_of_neg _ (by simp [hk])]
      · rw [if_neg h]
        simp only [phaseStatusIn, phaseViewIn]
        by_cases hk : ph.phase = k
        · left
          rw [List.find?_cons_of_pos _ (by simp [hk]),
              List.find?_cons_of_pos _ (by simp [hk])]
        · rw [List.find?_cons_of_neg _ (by simp [hk]),
              List.find?_cons_of_neg _ (by simp [hk])]
          exact ih

theorem phaseStatusIn_markError_mark (l : List PhaseInfo) (k : PhaseKey)
    (hmem : (phaseViewIn l k).isSome) :
    phaseStatusIn (markError l (phaseName k)) k = some PhaseStatus.error := by
  induction l with
  | nil => simp [phaseViewIn] at hmem
  | cons ph rest ih =>
      simp only [markError]
      by_cases hk : ph.phase = k
      · rw [if_pos (by rw [hk])]
        simp only [phaseStatusIn, phaseViewIn]
        rw [List.find?_cons_of_pos _ (by simp [hk])]
        rfl
      · have h : ¬ phaseName ph.phase = phaseName k := fun hc => hk (phaseName_inj hc)
        rw [if_neg h]
        have hmem2 : (phaseViewIn rest k).isSome := by
          have : phaseViewIn (ph :: rest) k = phaseViewIn rest k := by
            simp only [phaseViewIn]
            rw [List.find?_cons_of_neg _ (by simp [hk])]
          rwa [this] at hmem
        simp only [phaseStatusIn, phaseViewIn]
        rw [List.find?_cons_of_neg _ (by simp [hk])]
        exact ih hmem2

theorem phaseViewIn_isSome_markError (l : List PhaseInfo) (p : String) (k : PhaseKey) :
    (phaseViewIn (markError l p) k).isSome = (phaseViewIn l k).isSome := by
  induction l with
  | nil => rfl
  | cons ph rest ih =>
      simp only [markError]
      by_cases h : phaseName ph.phase = p
      · rw [if_pos h]
        simp only [phaseViewIn]
        by_cases hk : ph.phase = k
        · rw [List.find?_cons_of_pos _ (by simp [hk]),
              List.find?_cons_of_pos _ (by simp [hk])]
          rfl
        · rw [List.find?_cons_of_neg _ (by simp [hk]),
              List.find?_cons_of_neg _ (by simp [hk])]
      · rw [if_neg h]
        simp only [phaseViewIn]
        by_cases hk : ph.phase = k
        · rw [List.find?_cons_of_pos _ (by simp [hk]),
              List.find?_cons_of_pos _ (by simp [hk])]
        · rw [List.find?_cons_of_neg _ (by simp [hk]),
              List.find?_cons_of_neg _ (by simp [hk])]
          exact ih

theorem phaseStatusIn_markError_stable (l : List PhaseInfo) (p : String) (k : PhaseKey)
    (h : phaseStatusIn l k = some PhaseStatus.error) :
    phaseStatusIn (markError l p) k = some PhaseStatus.error := by
  rcases phaseStatusIn_markError_cases l p k with hc | hc
  · rw [hc, h]
  · exact hc

theorem phaseName_ne_empty (k : PhaseKey) : phaseName k ≠ "" := by
  cases k <;> decide

theorem attachErrors_map_phase (es : List ErrEntry) (l : List PhaseInfo) :
    (attachErrors l es).map (fun ph => ph.phase) = l.map (fun ph => ph.phase) := by
  induction es generalizing l with
  | nil => rfl
  | cons e rest ih =>
      cases e with
      | str s => simpa only [attachErrors] using ih l
      | obj p m =>
          cases p with
          | none => simpa only [attachErrors] using ih l
          | some tag =>
              simp only [attachErrors]
              by_cases ht : tag = ""
              · rw [if_pos ht]; exact ih l
              · rw [if_neg ht]
                rw [ih (markError l tag)]
                exact markError_map_phase l tag

theorem phaseDurationIn_attach (es : List ErrEntry) (l : List PhaseInfo) (k : PhaseKey) :
    phaseDurationIn (attachErrors l es) k = phaseDurationIn l k := by
  induction es generalizing l with
  | nil => rfl
  | cons e rest ih =>
      cases e with
      | str s => simpa only [attachErrors] using ih l
      | obj p m =>
          cases p with
          | none => simpa only [attachErrors] using ih l
          | some tag =>
              simp only [attachErrors]
              by_cases ht : tag = ""
              · rw [if_pos ht]; exact ih l
              · rw [if_neg ht]
                rw [ih (markError l tag)]
                exact phaseDurationIn_markError l tag k

theorem phaseViewIn_isSome_attach (es : List ErrEntry) (l : List PhaseInfo) (k : PhaseKey) :
    (phaseViewIn (attachErrors l es) k).isSome = (phaseViewIn l k).isSome := by
  induction es generalizing l with
  | nil => rfl
  | cons e rest ih =>
      cases e with
      | str s => simpa only [attachErrors] using ih l
      | obj p m =>
          cases p with
          | none => simpa only [attachErrors] using ih l
          | some tag =>
              simp only [attachErrors]
              by_cases ht : tag = ""
              · rw [if_pos ht]; exact ih l
              · rw [if_neg ht]
                rw [ih (markError l tag)]
                exact phaseViewIn_isSome_markError l tag k

theorem phaseStatusIn_attach_cases (es : List ErrEntry) (l : List PhaseInfo) (k : PhaseKey) :
    phaseStatusIn (attachErrors l es) k = phaseStatusIn l k ∨
      phaseStatusIn (attachErrors l es) k = some PhaseStatus.error := by
  induction es generalizing l with
  | nil => left; rfl
  | cons e rest ih =>
      cases e with
      | str s => simpa only [attachErrors] using ih l
      | obj p m =>
          cases p with
          | none => simpa only [attachErrors] using ih l
          | some tag =>
              simp only [attachErrors]
              by_cases ht : tag = ""
              · rw [if_pos ht]; exact ih l
              · rw [if_neg ht]
                rcases ih (markError l tag) with hc | hc
                · rw [hc]
                  exact phaseStatusIn_markError_cases l tag k
                · right; exact hc

theorem phaseStatusIn_attach_stable (es : List ErrEntry) (l : List PhaseInfo) (k : PhaseKey)
    (h : phaseStatusIn l k = some PhaseStatus.error) :
    phaseStatusIn (attachErrors l es) k = some PhaseStatus.error := by
  rcases phaseStatusIn_attach_cases es l k with hc | hc
  · rw [hc, h]
  · exact hc

theorem phaseStatusIn_attach_mark (es : List ErrEntry) (l : List PhaseInfo) (k : PhaseKey)
    (m : Option String)
    (hmem : ErrEntry.obj (some (phaseName k)) m ∈ es)
    (hview : (phaseViewIn l k).isSome) :
    phaseStatusIn (attachErrors l es) k = some PhaseStatus.error := by
  induction es generalizing l with
  | nil => simp at hmem
  | cons e rest ih =>
      rcases List.mem_cons.mp hmem with he | he
      · subst he
        simp only [attachErrors]
        rw [if_neg (phaseName_ne_empty k)]
        exact phaseStatusIn_attach_stable rest (markError l (phaseName k)) k
          (phaseStatusIn_markError_mark l k hview)
      · cases e with
        | str s =>
            simp only [attachErrors]
            exact ih l he hview
        | obj p m2 =>
            cases p with
            | none =>
                simp only [attachErrors]
                exact ih l he hview
            | some tag =>
                simp only [attachErrors]
                by_cases ht : tag = ""
                · rw [if_pos ht]; exact ih l he hview
                · rw [if_neg ht]
                  have hv2 : (phaseViewIn (markError l tag) k).isSome := by
                    rw [phaseViewIn_isSome_markError]; exact hview
                  exact ih (markError l tag) he hv2

theorem transform_phases (raw : PipelineRunRaw) :
    (transformRun raw).phases = attachErrors (classifyPhases raw) (raw.errors.getD []) := rfl

theorem phaseViewIn_classify_isSome (raw : PipelineRunRaw) (k : PhaseKey) :
    (phaseViewIn (classifyPhases raw) k).isSome := by
  cases k <;> rfl

theorem phaseStatusIn_transform_no_errors (raw : PipelineRunRaw) (k : PhaseKey)
    (h : raw.errors = none) :
    phaseStatusIn ((transformRun raw).phases) k = some (phaseStatusOf raw (canonIdx k) k) := by
  rw [transform_phases, h]
  exact phaseStatusIn_classify raw k

theorem collectErrorStrings_eq_map (es : List ErrEntry) :
    collectErrorStrings es = es.map renderEntry := by
  have hgen : ∀ (l : List ErrEntry) (acc : List String),
      l.foldl
        (fun acc e =>
          match e with
          | ErrEntry.str s => acc ++ [s]
          | ErrEntry.obj p err => acc ++ [renderEntry (ErrEntry.obj p err)])
        acc = acc ++ l.map renderEntry := by
    intro l
    induction l with
    | nil => intro acc; simp
    | cons e rest ih =>
        intro acc
        cases e with
        | str s =>
            simp only [List.foldl_cons, List.map_cons]
            exact (ih (acc ++ [s])).trans (by simp [renderEntry])
        | obj p m =>
            simp only [List.foldl_cons, List.map_cons]
            exact (ih (acc ++ [renderEntry (ErrEntry.obj p m)])).trans (by simp)
  simpa [collectErrorStrings] using hgen es []

theorem foldl_criticStep_num (l : List (String × JVal)) :
    ∀ b : Rat, l.foldl criticStep (JVal.num b) = JVal.num (b + specCompositeSum l) := by
  induction l with
  | nil => intro b; simp [specCompositeSum]
  | cons kv rest ih =>
      intro b
      rcases kv with ⟨ks, v⟩
      cases v with
      | num w =>
          by_cases hs : strStartsWith ks ("critic_review_")
          · have hstep : criticStep (JVal.num b) (ks, JVal.num w) = JVal.num (b + w) := by
              simp [criticStep, hs, jadd_num]
            have hsum : specCompositeSum ((ks, JVal.num w) :: rest) = w + specCompositeSum rest := by
              simp [specCompositeSum, hs]
            rw [List.foldl_cons, hstep, ih (b + w), hsum]
            congr 1
            ring
          · have hstep : criticStep (JVal.num b) (ks, JVal.num w) = JVal.num b := by
              simp [criticStep, hs]
            have hsum : specCompositeSum ((ks, JVal.num w) :: rest) = specCompositeSum rest := by
              simp [specCompositeSum, hs]
            rw [List.foldl_cons, hstep, ih b, hsum]
      | nonnum =>
          have hstep : criticStep (JVal.num b) (ks, JVal.nonnum) = JVal.num b := by
            simp [criticStep]
          have hsum : specCompositeSum ((ks, JVal.nonnum) :: rest) = specCompositeSum rest := by
            simp [specCompositeSum]
          rw [List.foldl_cons, hstep, ih b, hsum]

theorem criticTotal_eq_spec (timings : List (String × JVal))
    (h : bareCriticNumeric timings = true) :
    criticTotal timings = JVal.num (specCriticDuration timings) := by
  unfold criticTotal specCriticDuration specBareCritic
  cases hb : jlookup timings ("critic_review") with
  | none =>
      simpa using foldl_criticStep_num timings 0
  | some v =>
      cases v with
      | num b =>
          simpa using foldl_criticStep_num timings b
      | nonnum =>
          rw [bareCriticNumeric, hb] at h
          simp at h

theorem phaseDurationIn_transform (raw : PipelineRunRaw) (k : PhaseKey) :
    phaseDurationIn ((transformRun raw).phases) k = some (phaseDurationOf raw k) := by
  rw [transform_phases, phaseDurationIn_attach, phaseDurationIn_classify]

theorem map_phase_classify (raw : PipelineRunRaw) :
    (classifyPhases raw).map (fun ph => ph.phase) = PHASE_ORDER := rfl

theorem map_phase_transform (raw : PipelineRunRaw) :
    ((transformRun raw).phases).map (fun ph => ph.phase) = PHASE_ORDER := by
  rw [transform_phases, attachErrors_map_phase, map_phase_classify]

theorem timelineCount_eq_count (l : List PhaseInfo) (k : PhaseKey) :
    timelineCount l k = (l.map (fun ph => ph.phase)).count k := by
  induction l with
  | nil => rfl
  | cons ph rest ih =>
      by_cases h : ph.phase = k
      · simp [timelineCount, List.filter_cons, h, List.count_cons, ih]
        rw [← ih]
        simp [timelineCount]
      · simp [timelineCount, List.filter_cons, h, List.count_cons, ih]
        rw [← ih]
        simp [timelineCount]

/-
  Claims.
-/

/-- Claim C1: with status running, loop_count at least 1, current phase
    feature_engineering and strictly positive timings for the first four
    phases, the classification yields will_rerun for visualization and
    model_training, running for feature_engineering and completed for
    data_profiling; and in general, when the current phase is canonical, a
    phase that has run is classified will_rerun exactly when looping mode is
    active, its canonical index is strictly greater than the index of the
    current phase, and it is not the re-enterable critic_review phase. -/
theorem C1_loop_detection :
    (∀ raw : PipelineRunRaw,
       raw.status = PipelineStatus.running →
       1 ≤ raw.loop_count.getD 0 →
       raw.current_phase = some ("feature_engineering") →
       posTiming raw ("data_profiling") →
       posTiming raw ("feature_engineering") →
       posTiming raw ("visualization") →
       posTiming raw ("model_training") →
       phaseStatusIn (classifyPhases raw) PhaseKey.visualization = some PhaseStatus.will_rerun ∧
       phaseStatusIn (classifyPhases raw) PhaseKey.model_training = some PhaseStatus.will_rerun ∧
       phaseStatusIn (classifyPhases raw) PhaseKey.feature_engineering = some PhaseStatus.running ∧
       phaseStatusIn (classifyPhases raw) PhaseKey.data_profiling = some PhaseStatus.completed) ∧
    (∀ (raw : PipelineRunRaw) (k : PhaseKey),
       hasRunOf raw k = true →
       currentPhaseOf raw ∈ PHASE_NAMES →
       (phaseStatusIn (classifyPhases raw) k = some PhaseStatus.will_rerun ↔
         isLoopingOf raw = true ∧ currentIdxOf raw < (canonIdx k : Int) ∧
           k ≠ PhaseKey.critic_review)) := by
  constructor
  · intro raw h1 h2 h3 hp1 hp2 hp3 hp4
    have hc : currentPhaseOf raw = "feature_engineering" := by simp [currentPhaseOf, h3]
    have hidx : currentIdxOf raw = 1 := by rw [currentIdxOf, hc]; decide
    have hrun : isRunningOf raw = true := by simp [isRunningOf, h1]
    have hfin : isFinalizedOf raw = false := by rw [isFinalizedOf, hc]; decide
    have hloop : isLoopingOf raw = true := by
      rw [isLoopingOf, hrun, hfin]
      simp only [Bool.true_and, Bool.not_false, Bool.and_true, decide_eq_true_eq]
      omega
    have hdur : ∀ (k : PhaseKey), k ≠ PhaseKey.critic_review → ∀ v : Rat,
        jlookup (timingsOf raw) (phaseName k) = some (JVal.num v) → 0 < v →
        hasRunOf raw k = true := by
      intro k hk v hv hvpos
      rw [hasRunOf, phaseDurationOf, if_neg hk, hv]
      simp [jgt0, hvpos]
    obtain ⟨v1, hv1, hv1p⟩ := hp1
    obtain ⟨v2, hv2, hv2p⟩ := hp2
    obtain ⟨v3, hv3, hv3p⟩ := hp3
    obtain ⟨v4, hv4, hv4p⟩ := hp4
    have hr1 := hdur PhaseKey.data_profiling (by decide) v1 hv1 hv1p
    have hr3 := hdur PhaseKey.visualization (by decide) v3 hv3 hv3p
    have hr4 := hdur PhaseKey.model_training (by decide) v4 hv4 hv4p
    refine ⟨?_, ?_, ?_, ?_⟩
    · rw [phaseStatusIn_classify]
      unfold phaseStatusOf
      rw [hc, hidx, hrun, hr3, hloop]
      simp [phaseName, canonIdx]
    · rw [phaseStatusIn_classify]
      unfold phaseStatusOf
      rw [hc, hidx, hrun, hr4, hloop]
      simp [phaseName, canonIdx]
    · rw [phaseStatusIn_classify]
      unfold phaseStatusOf
      rw [hc, hrun]
      simp [phaseName, canonIdx]
    · rw [phaseStatusIn_classify]
      unfold phaseStatusOf
      rw [hc, hidx, hrun, hr1, hloop]
      simp [phaseName, canonIdx]
  · intro raw k hhr hmem
    have h0 : (0:Int) ≤ currentIdxOf raw := by
      rw [currentIdxOf]
      exact jsIndexOf_nonneg_of_mem _ _ hmem
    rw [phaseStatusIn_classify]
    simp only [Option.some.injEq]
    unfold phaseStatusOf
    by_cases hcur : currentPhaseOf raw = phaseName k
    · have hci : currentIdxOf raw = (canonIdx k : Int) := by
        rw [currentIdxOf, hcur, jsIndexOf_phaseName]
      have hrhs : ¬ (isLoopingOf raw = true ∧ currentIdxOf raw < (canonIdx k : Int) ∧
          k ≠ PhaseKey.critic_review) := by
        rintro ⟨_, hlt, _⟩
        rw [hci] at hlt
        exact lt_irrefl _ hlt
      by_cases hr : isRunningOf raw = true
      · rw [if_pos (by simp [hcur, hr])]
        exact ⟨fun hst => absurd hst (by decide), fun h => absurd h hrhs⟩
      · have hrf : isRunningOf raw = false := by
          cases hb : isRunningOf raw
          · rfl
          · exact absurd hb hr
        have hloopf : isLoopingOf raw = false := by
          rw [isLoopingOf, hrf]
          simp
        rw [if_neg (by simp [hrf]), if_pos hhr]
        by_cases hC : (isLoopingOf raw && decide (0 ≤ currentIdxOf raw)
            && decide (((canonIdx k : Nat) : Int) > currentIdxOf raw)
            && !decide (k = PhaseKey.critic_review)) = true
        · rw [hloopf] at hC
          simp at hC
        · rw [if_neg hC]
          exact ⟨fun hst => absurd hst (by decide), fun h => absurd h hrhs⟩
    · rw [if_neg (by simp [hcur]), if_pos hhr]
      by_cases hC : (isLoopingOf raw && decide (0 ≤ currentIdxOf raw)
          && decide (((canonIdx k : Nat) : Int) > currentIdxOf raw)
          && !decide (k = PhaseKey.critic_review)) = true
      · rw [if_pos hC]
        simp only [Bool.and_eq_true, decide_eq_true_eq, Bool.not_eq_true',
          decide_eq_false_iff_not] at hC
        obtain ⟨⟨⟨hl, _⟩, hgt⟩, hne⟩ := hC
        exact ⟨fun _ => ⟨hl, hgt, hne⟩, fun _ => rfl⟩
      · rw [if_neg hC]
        constructor
        · intro hst
          exact absurd hst (by decide)
        · rintro ⟨hl, hgt, hne⟩
          exfalso
          apply hC
          simp only [Bool.and_eq_true, decide_eq_true_eq, Bool.not_eq_true',
            decide_eq_false_iff_not]
          exact ⟨⟨⟨hl, h0⟩, hgt⟩, hne⟩

/-- Witness for claim C1: the loop-back snapshot rawLoop realises every
    hypothesis of the scenario and yields the four required statuses. -/
theorem C1_loop_detection_witness :
    phaseStatusIn (classifyPhases rawLoop) PhaseKey.visualization = some PhaseStatus.will_rerun ∧
    phaseStatusIn (classifyPhases rawLoop) PhaseKey.model_training = some PhaseStatus.will_rerun ∧
    phaseStatusIn (classifyPhases rawLoop) PhaseKey.feature_engineering = some PhaseStatus.running ∧
    phaseStatusIn (classifyPhases rawLoop) PhaseKey.data_profiling = some PhaseStatus.completed :=
  C1_loop_detection.1 rawLoop rfl (by decide) rfl
    ⟨1, by decide, by decide⟩ ⟨2, by decide, by decide⟩
    ⟨3, by decide, by decide⟩ ⟨4, by decide, by decide⟩

/-- Claim C2 (code divergence): the count recorded alongside a phase view by
    the presentation layer is the number of projected views carrying that
    key, which is always 1 — in particular it is 1, not 2, for the snapshot
    with the two composite critic timings, because transformRun emits
    exactly one view per canonical phase and records no occurrence count
    derived from composite timing keys. -/
theorem C2_count_code_eval :
    timelineCount ((transformRun rawCritic).phases) PhaseKey.critic_review = 1 ∧
    ∀ (raw : PipelineRunRaw) (k : PhaseKey),
      timelineCount ((transformRun raw).phases) k = 1 := by
  refine ⟨by decide, fun raw k => ?_⟩
  rw [timelineCount_eq_count, map_phase_transform]
  cases k <;> decide

/-- Claim C3 counterexample: on the snapshot with no timings at all, the
    spec formula (bare value, zero when absent, plus composite sum) gives 0,
    but the projected critic_review view displays no duration at all rather
    than the number 0 — the claimed equality fails because the code only
    displays the aggregate when it is strictly positive. -/
theorem C3_counterexample :
    specCriticDuration (timingsOf rawEmptyT) = 0 ∧
    phaseDurationIn ((transformRun rawEmptyT).phases) PhaseKey.critic_review = some none ∧
    ¬ phaseDurationIn ((transformRun rawEmptyT).phases) PhaseKey.critic_review
        = some (some (JVal.num (specCriticDuration (timingsOf rawEmptyT)))) := by
  have h0 : specCriticDuration (timingsOf rawEmptyT) = 0 := by
    simp [specCriticDuration, specBareCritic, specCompositeSum, timingsOf, rawEmptyT, jlookup]
  refine ⟨h0, by decide, ?_⟩
  rw [h0]
  decide

/-- Claim C3 as amended: whenever the bare critic_review entry is absent or
    numeric, the displayed duration of critic_review is the spec aggregate
    (bare value plus the sum of numeric composite-key timings) when that
    aggregate is strictly positive and is absent otherwise, and the
    displayed duration of every other phase is its bare-key timing with no
    aggregation. -/
theorem C3_amended_aggregation :
    ∀ (raw : PipelineRunRaw) (k : PhaseKey),
      bareCriticNumeric (timingsOf raw) = true →
      phaseDurationIn ((transformRun raw).phases) k
        = some (specPhaseDuration (timingsOf raw) k) := by
  intro raw k h
  rw [phaseDurationIn_transform]
  unfold phaseDurationOf specPhaseDuration
  by_cases hk : k = PhaseKey.critic_review
  · rw [if_pos hk, if_pos hk, criticTotal_eq_spec (timingsOf raw) h]
    by_cases hp : 0 < specCriticDuration (timingsOf raw)
    · rw [if_pos (by simp [jgt0, hp]), if_pos hp]
    · rw [if_neg (by simp [jgt0, hp]), if_neg hp]
  · rw [if_neg hk, if_neg hk]

/-- Witness for claim C3 as amended: on the aggregation-example snapshot the
    projected critic_review duration is the spec aggregate, which evaluates
    to 5.5. -/
theorem C3_amended_aggregation_witness :
    phaseDurationIn ((transformRun rawCritic).phases) PhaseKey.critic_review
        = some (specPhaseDuration (timingsOf rawCritic) PhaseKey.critic_review) ∧
    specPhaseDuration (timingsOf rawCritic) PhaseKey.critic_review
        = some (JVal.num (mkRat 11 2)) := by
  refine ⟨C3_amended_aggregation rawCritic PhaseKey.critic_review (by decide), ?_⟩
  have h1 : strStartsWith ("critic_review_1") ("critic_review_") = true := by decide
  have h2 : strStartsWith ("critic_review_2") ("critic_review_") = true := by decide
  have hs : specCriticDuration (timingsOf rawCritic) = mkRat 11 2 := by
    simp [specCriticDuration, specBareCritic, specCompositeSum, timingsOf, rawCritic,
      jlookup, List.find?, h1, h2, Rat.mkRat_eq_div]
    norm_num
  rw [specPhaseDuration, if_pos rfl, hs]
  rw [if_pos (by rw [Rat.mkRat_eq_div]; norm_num)]

/-- Claim C4: any structured error entry whose phase tag names a canonical
    phase forces that phase view in the final output to status error,
    whatever the duration-based classification computed. -/
theorem C4_error_precedence :
    ∀ (raw : PipelineRunRaw) (k : PhaseKey) (m : Option String),
      ErrEntry.obj (some (phaseName k)) m ∈ raw.errors.getD [] →
      phaseStatusIn ((transformRun raw).phases) k = some PhaseStatus.error := by
  intro raw k m hmem
  rw [transform_phases]
  exact phaseStatusIn_attach_mark (raw.errors.getD []) (classifyPhases raw) k m hmem
    (phaseViewIn_classify_isSome raw k)

/-- Witness for claim C4: the evaluation phase of rawErr has a positive
    duration yet its final status is error. -/
theorem C4_error_precedence_witness :
    phaseStatusIn ((transformRun rawErr).phases) PhaseKey.evaluation
      = some PhaseStatus.error :=
  C4_error_precedence rawErr PhaseKey.evaluation (some ("divide by zero")) (by decide)

/-- Claim C5: once the current phase is the finalized sentinel, looping mode
    is off, critic_review counts as having run even without a timing, and
    its classification is completed. -/
theorem C5_finalized_critic :
    ∀ raw : PipelineRunRaw,
      raw.current_phase = some ("finalized") →
      isLoopingOf raw = false ∧ hasRunOf raw PhaseKey.critic_review = true ∧
      phaseStatusIn (classifyPhases raw) PhaseKey.critic_review
        = some PhaseStatus.completed := by
  intro raw h
  have hc : currentPhaseOf raw = "finalized" := by simp [currentPhaseOf, h]
  have hfin : isFinalizedOf raw = true := by simp [isFinalizedOf, hc]
  have hloop : isLoopingOf raw = false := by simp [isLoopingOf, hfin]
  have hrun : hasRunOf raw PhaseKey.critic_review = true := by
    simp [hasRunOf, hfin]
  refine ⟨hloop, hrun, ?_⟩
  rw [phaseStatusIn_classify]
  unfold phaseStatusOf
  rw [hc, hrun, hloop]
  simp [phaseName]

/-- Witness for claim C5: the finalized snapshot rawFinal yields looping off,
    critic_review has run, and the classification completed. -/
theorem C5_finalized_critic_witness :
    isLoopingOf rawFinal = false ∧ hasRunOf rawFinal PhaseKey.critic_review = true ∧
    phaseStatusIn (classifyPhases rawFinal) PhaseKey.critic_review
      = some PhaseStatus.completed :=
  C5_finalized_critic rawFinal rfl

/-- Claim C6: a phase whose displayed duration is absent or exactly zero and
    which is neither the currently running phase nor covered by the
    finalized-sentinel special case is classified pending. -/
theorem C6_zero_duration_pending :
    ∀ (raw : PipelineRunRaw) (k : PhaseKey),
      (phaseDurationOf raw k = none ∨ phaseDurationOf raw k = some (JVal.num 0)) →
      ¬ (currentPhaseOf raw = phaseName k ∧ raw.status = PipelineStatus.running) →
      ¬ (k = PhaseKey.critic_review ∧ isFinalizedOf raw = true) →
      phaseStatusIn (classifyPhases raw) k = some PhaseStatus.pending := by
  intro raw k hd hcur hfin
  rw [phaseStatusIn_classify]
  have hc1 : (decide (currentPhaseOf raw = phaseName k) && isRunningOf raw) = false := by
    rw [isRunningOf]
    by_cases h1 : currentPhaseOf raw = phaseName k
    · by_cases h2 : raw.status = PipelineStatus.running
      · exact absurd ⟨h1, h2⟩ hcur
      · simp [h2]
    · simp [h1]
  have hcd : (decide (k = PhaseKey.critic_review) && isFinalizedOf raw) = false := by
    by_cases h1 : k = PhaseKey.critic_review
    · by_cases h2 : isFinalizedOf raw = true
      · exact absurd ⟨h1, h2⟩ hfin
      · have h2f : isFinalizedOf raw = false := by
          cases hb : isFinalizedOf raw
          · rfl
          · exact absurd hb h2
        simp [h2f]
    · simp [h1]
  have hj : jgt0 (JVal.num 0) = false := by decide
  have hhr : hasRunOf raw k = false := by
    rw [hasRunOf]
    rcases hd with h | h
    · rw [h, hcd]
      simp
    · rw [h, hcd]
      simp [hj]
  unfold phaseStatusOf
  rw [hc1, hhr]
  simp

/-- Witness for claim C6: an explicit zero timing for data_profiling with no
    other evidence yields status pending. -/
theorem C6_zero_duration_pending_witness :
    phaseStatusIn (classifyPhases rawZero) PhaseKey.data_profiling
      = some PhaseStatus.pending :=
  C6_zero_duration_pending rawZero PhaseKey.data_profiling
    (Or.inr (by decide)) (by decide) (by decide)

/-- Claim C7: when the current phase is absent or not in the canonical
    order, no phase is classified running and none is classified
    will_rerun. -/
theorem C7_noncanonical_current :
    ∀ raw : PipelineRunRaw,
      currentPhaseOf raw ∉ PHASE_NAMES →
      ∀ k : PhaseKey,
        phaseStatusIn (classifyPhases raw) k ≠ some PhaseStatus.running ∧
        phaseStatusIn (classifyPhases raw) k ≠ some PhaseStatus.will_rerun := by
  intro raw h k
  rw [phaseStatusIn_classify]
  have hcur : decide (currentPhaseOf raw = phaseName k) = false := by
    simp only [decide_eq_false_iff_not]
    intro he
    exact h (he ▸ phaseName_mem_PHASE_NAMES k)
  have hidx : currentIdxOf raw = -1 := by
    rw [currentIdxOf]
    exact jsIndexOf_neg_of_not_mem _ _ h
  have hle : decide ((0:Int) ≤ -1) = false := by decide
  unfold phaseStatusOf
  rw [hcur, hidx, hle]
  simp only [Bool.false_and, Bool.and_false, if_false]
  by_cases hr : hasRunOf raw k = true
  · simp [hr]
  · have hrf : hasRunOf raw k = false := by
      cases hb : hasRunOf raw k
      · rfl
      · exact absurd hb hr
    simp [hrf]

/-- Witness for claim C7: the running, loop-positive snapshot whose current
    phase is the finalized sentinel classifies visualization neither running
    nor will_rerun. -/
theorem C7_noncanonical_current_witness :
    phaseStatusIn (classifyPhases rawSentinel) PhaseKey.visualization
        ≠ some PhaseStatus.running ∧
    phaseStatusIn (classifyPhases rawSentinel) PhaseKey.visualization
        ≠ some PhaseStatus.will_rerun :=
  C7_noncanonical_current rawSentinel (by decide) PhaseKey.visualization

/-- Claim C8: for every snapshot the output phases list has exactly one
    entry per canonical phase, in canonical order, six entries in all. -/
theorem C8_completeness :
    ∀ raw : PipelineRunRaw,
      ((transformRun raw).phases).map (fun ph => ph.phase) = PHASE_ORDER ∧
      ((transformRun raw).phases).length = 6 := by
  intro raw
  refine ⟨map_phase_transform raw, ?_⟩
  have h := congrArg List.length (map_phase_transform raw)
  simpa using h

/-- Claim C9: every entry of the input errors array contributes exactly one
    string to the flattened output list, in original order; a bare string
    appears verbatim, and a structured entry is rendered from its message
    (with a structural fallback) prefixed with the bracketed phase tag when
    a non-empty tag is present. -/
theorem C9_error_flattening :
    (∀ raw : PipelineRunRaw,
       ((transformRun raw).errors).getD [] = (raw.errors.getD []).map renderEntry) ∧
    (∀ s : String, renderEntry (ErrEntry.str s) = s) ∧
    (∀ (p : String) (m : Option String),
       renderEntry (ErrEntry.obj (some p) m)
         = (if p = "" then renderMsg (some p) m
            else "[" ++ p ++ "] " ++ renderMsg (some p) m)) ∧
    (∀ m : Option String, renderEntry (ErrEntry.obj none m) = renderMsg none m) := by
  refine ⟨?_, fun s => rfl, fun p m => rfl, fun m => rfl⟩
  intro raw
  show (if (collectErrorStrings (raw.errors.getD [])).length > 0
        then some (collectErrorStrings (raw.errors.getD [])) else none).getD []
       = (raw.errors.getD []).map renderEntry
  rw [collectErrorStrings_eq_map]
  by_cases h : ((raw.errors.getD []).map renderEntry).length > 0
  · rw [if_pos h]
    rfl
  · rw [if_neg h]
    have hnil : (raw.errors.getD []).map renderEntry = [] := by
      cases hm : (raw.errors.getD []).map renderEntry with
      | nil => rfl
      | cons a l => rw [hm] at h; simp at h
    rw [hnil]
    rfl

/-- Claim C10: the output errors field is absent exactly when the input
    errors sequence contributes no strings, and it is never materialized as
    an empty list. -/
theorem C10_empty_errors_absent :
    ∀ raw : PipelineRunRaw,
      ((transformRun raw).errors = none ↔ raw.errors.getD [] = []) ∧
      (transformRun raw).errors ≠ some [] := by
  intro raw
  have he : (transformRun raw).errors =
      (if (collectErrorStrings (raw.errors.getD [])).length > 0
       then some (collectErrorStrings (raw.errors.getD [])) else none) := rfl
  rw [he, collectErrorStrings_eq_map]
  by_cases h : raw.errors.getD [] = []
  · rw [h]
    simp
  · have hlen : ((raw.errors.getD []).map renderEntry).length > 0 := by
      cases hm : raw.errors.getD [] with
      | nil => exact absurd hm h
      | cons a l => simp [hm]
    rw [if_pos hlen]
    refine ⟨⟨fun hc => absurd hc (by simp), fun hc => absurd hc h⟩, fun hc => ?_⟩
    have hnil : (raw.errors.getD []).map renderEntry = [] := Option.some.inj hc
    rw [hnil] at hlen
    simp at hlen
